import Mathlib

/-
Verification of the Quorum Optimizer resolution layer.

The scoring and recommendation engine is embedded from
src/src/quorum-optimizer.jsx (functions calcPriority, calcIndex, the zip
enrichment inside analyzeData, the tier selection, and calcProj).
JavaScript numbers are modelled as exact rationals; the places where the
source can divide by zero are modelled with an explicit JsNum type carrying
the IEEE special values (infinities and NaN) so that guarded and unguarded
divisions can be told apart.  The attribution resolver (dedupe) ships only
as documented SQL in src/API_DOCUMENTATION.md; it is modelled from the
specification text.
-/

namespace Quorum

/-! ### JavaScript rounding

JavaScript Math.round(x) is floor(x + 1/2): halves round toward positive
infinity.  Rat.floor is used so the definition evaluates. -/

/-- JS Math.round on an exact rational: floor of the argument plus one half. -/
def jsRound (q : ℚ) : ℤ := (q + 1/2).floor

theorem jsRound_eq (q : ℚ) : jsRound q = ⌊q + 1/2⌋ := by
  rw [jsRound, Rat.floor_def', ← Rat.floor_def]

theorem jsRound_mono {x y : ℚ} (h : x ≤ y) : jsRound x ≤ jsRound y := by
  rw [jsRound_eq, jsRound_eq]
  exact Int.floor_mono (by linarith)

theorem jsRound_congr {x y : ℚ} (h : x = y) : jsRound x = jsRound y := by
  rw [h]

/-! ### JavaScript number values

A JavaScript number is either a finite value (modelled exactly as a
rational), one of the two infinities, or NaN.  Only the three operations
the projection helper uses are needed: subtraction, division and
multiplication, with the IEEE special-value rules JavaScript follows. -/

/-- A JavaScript number: finite rational, an infinity, or NaN. -/
inductive JsNum where
  | fin : ℚ → JsNum
  | inf : JsNum
  | ninf : JsNum
  | nan : JsNum
deriving DecidableEq

/-- True exactly on finite JS numbers (what Number.isFinite reports). -/
def JsNum.isFinite : JsNum → Bool
  | .fin _ => true
  | _ => false

/-- JS subtraction with IEEE special-value rules. -/
def JsNum.sub : JsNum → JsNum → JsNum
  | .nan, _ => .nan
  | _, .nan => .nan
  | .fin a, .fin b => .fin (a - b)
  | .inf, .fin _ => .inf
  | .fin _, .inf => .ninf
  | .ninf, .fin _ => .ninf
  | .fin _, .ninf => .inf
  | .inf, .ninf => .inf
  | .ninf, .inf => .ninf
  | .inf, .inf => .nan
  | .ninf, .ninf => .nan

/-- JS division with IEEE special-value rules: a finite value divided by
zero gives an infinity of the numerator sign, or NaN for zero over zero. -/
def JsNum.div : JsNum → JsNum → JsNum
  | .nan, _ => .nan
  | _, .nan => .nan
  | .fin a, .fin b =>
    if b = 0 then (if 0 < a then .inf else if a < 0 then .ninf else .nan)
    else .fin (a / b)
  | .fin _, .inf => .fin 0
  | .fin _, .ninf => .fin 0
  | .inf, .fin b => if 0 ≤ b then .inf else .ninf
  | .ninf, .fin b => if 0 ≤ b then .ninf else .inf
  | .inf, .inf => .nan
  | .inf, .ninf => .nan
  | .ninf, .inf => .nan
  | .ninf, .ninf => .nan

/-- JS multiplication with IEEE special-value rules. -/
def JsNum.mul : JsNum → JsNum → JsNum
  | .nan, _ => .nan
  | _, .nan => .nan
  | .fin a, .fin b => .fin (a * b)
  | .inf, .fin b => if 0 < b then .inf else if b < 0 then .ninf else .nan
  | .fin a, .inf => if 0 < a then .inf else if a < 0 then .ninf else .nan
  | .ninf, .fin b => if 0 < b then .ninf else if b < 0 then .inf else .nan
  | .fin a, .ninf => if 0 < a then .ninf else if a < 0 then .inf else .nan
  | .inf, .inf => .inf
  | .inf, .ninf => .ninf
  | .ninf, .inf => .ninf
  | .ninf, .ninf => .inf

/-! ### Stable descending sort

The source sorts with Array.prototype.sort and the comparator
(a, b) => b.reallocationPriority - a.reallocationPriority.  Modern JS
engines sort stably, so the result is the stable descending sort by
priority, which insertion sort with a non-strict comparison reproduces. -/

/-- Descending comparison by an integer key, as the JS comparator orders. -/
def prioRel {α : Type} (key : α → ℤ) (a b : α) : Prop := key b ≤ key a

instance {α : Type} (key : α → ℤ) : DecidableRel (prioRel key) :=
  fun a b => (inferInstance : Decidable (key b ≤ key a))

instance {α : Type} (key : α → ℤ) : IsTotal α (prioRel key) :=
  ⟨fun a b => le_total (key b) (key a)⟩

instance {α : Type} (key : α → ℤ) : IsTrans α (prioRel key) :=
  ⟨fun _ _ _ h1 h2 => le_trans h2 h1⟩

/-- Stable descending sort by an integer key (JS Array#sort with the
b - a comparator). -/
def sortKey {α : Type} (key : α → ℤ) (l : List α) : List α :=
  l.insertionSort (prioRel key)

theorem sortKey_perm {α : Type} (key : α → ℤ) (l : List α) :
    List.Perm (sortKey key l) l :=
  List.perm_insertionSort _ l

theorem sortKey_pairwise {α : Type} (key : α → ℤ) (l : List α) :
    (sortKey key l).Pairwise (prioRel key) :=
  List.sorted_insertionSort (prioRel key) l

theorem take_filter_pred {α : Type} (key : α → ℤ) (P : α → Bool) (k : ℕ)
    (l : List α) {x : α} (hx : x ∈ ((sortKey key l).filter P).take k) :
    P x = true :=
  (List.mem_filter.mp (List.mem_of_mem_take hx)).2

theorem take_filter_len {α : Type} (key : α → ℤ) (P : α → Bool) (k : ℕ)
    (l : List α) : (((sortKey key l).filter P).take k).length ≤ k :=
  List.length_take_le k _

/-- Any candidate that passes the filter but is not among the first k of
the sorted-and-filtered list has a key no larger than any selected row:
the selection is a top-k prefix by key. -/
theorem take_filter_top {α : Type} (key : α → ℤ) (P : α → Bool) (k : ℕ)
    (l : List α) {x y : α} (hx : x ∈ ((sortKey key l).filter P).take k)
    (hy : y ∈ l) (hPy : P y = true)
    (hyn : y ∉ ((sortKey key l).filter P).take k) :
    key y ≤ key x := by
  set s := (sortKey key l).filter P with hs
  have hp : s.Pairwise (prioRel key) := (sortKey_pairwise key l).filter P
  have hys : y ∈ s := List.mem_filter.mpr ⟨(sortKey_perm key l).mem_iff.mpr hy, hPy⟩
  have hyd : y ∈ s.drop k := by
    have hsp : y ∈ s.take k ++ s.drop k := by
      rw [List.take_append_drop]; exact hys
    rcases List.mem_append.mp hsp with h | h
    · exact absurd h hyn
    · exact h
  have hp2 : (s.take k ++ s.drop k).Pairwise (prioRel key) := by
    rw [List.take_append_drop]; exact hp
  exact (List.pairwise_append.mp hp2).2.2 x hx y hyd

/-! ### Attribution resolver

The dedupe step is not shipped as code under src/: it exists as the
documented SQL in src/API_DOCUMENTATION.md (ROW_NUMBER over the episode
partition ordered by impression timestamp descending, keep rank 1).  It is
modelled here from the specification text. -/

/-- Whether a conversion flag marks a store visit or a web visit. -/
inductive EpisodeKind where
  | store : EpisodeKind
  | web : EpisodeKind
deriving DecidableEq

/-- Modelled from the spec: a ConversionFlag row marking a device as having
preceded a conversion, with a source-row identifier, the device identifier,
the conversion date (store visits), the visit-episode id (web visits) and
the event timestamp of the impression. -/
structure ConversionFlag where
  rowId : String
  device : String
  kind : EpisodeKind
  conversionDate : String
  visitEpisodeId : String
  eventTs : ℤ
deriving DecidableEq

/-- Modelled from the spec: the episode key is (device, conversion date)
for store visits and (device, visit-episode id) for web visits. -/
def episodeKey (f : ConversionFlag) : String × String :=
  (f.device, match f.kind with
    | .store => f.conversionDate
    | .web => f.visitEpisodeId)

/-- Modelled from the spec: flag a is preferred over flag b when it has a
strictly later event timestamp, or the same timestamp and a
lexicographically smaller source-row identifier. -/
def beats (a b : ConversionFlag) : Prop :=
  b.eventTs < a.eventTs ∨ (a.eventTs = b.eventTs ∧ a.rowId < b.rowId)

instance (a b : ConversionFlag) : Decidable (beats a b) :=
  decidable_of_iff
    (b.eventTs < a.eventTs ∨
      (a.eventTs = b.eventTs ∧ a.rowId.toList < b.rowId.toList))
    (by rw [beats, String.lt_iff_toList_lt])

theorem beats_irrefl (a : ConversionFlag) : ¬ beats a a := by
  simp [beats]

theorem beats_trans {a b c : ConversionFlag} (h1 : beats a b) (h2 : beats b c) :
    beats a c := by
  rcases h1 with h1 | ⟨h1e, h1s⟩ <;> rcases h2 with h2 | ⟨h2e, h2s⟩
  · exact Or.inl (h2.trans h1)
  · exact Or.inl (by rw [← h2e]; exact h1)
  · exact Or.inl (by rw [h1e]; exact h2)
  · exact Or.inr ⟨h1e.trans h2e, h1s.trans h2s⟩

theorem not_beats_le {f b : ConversionFlag} (h : ¬ beats f b) :
    f.eventTs ≤ b.eventTs ∧ (f.eventTs = b.eventTs → b.rowId ≤ f.rowId) := by
  rw [beats] at h
  push_neg at h
  exact h

/-- Modelled from the spec: the rank-1 flag of one episode group, namely
the one no other flag in the group is preferred over. -/
def pickBest : List ConversionFlag → Option ConversionFlag
  | [] => none
  | f :: fs =>
    match pickBest fs with
    | none => some f
    | some g => if beats f g then some f else some g

theorem pickBest_eq_none {l : List ConversionFlag} (h : pickBest l = none) :
    l = [] := by
  cases l with
  | nil => rfl
  | cons f fs =>
    exfalso
    cases hfs : pickBest fs with
    | none => simp only [pickBest, hfs] at h; exact Option.noConfusion h
    | some g =>
      simp only [pickBest, hfs] at h
      by_cases hb : beats f g
      · rw [if_pos hb] at h; exact Option.noConfusion h
      · rw [if_neg hb] at h; exact Option.noConfusion h

theorem pickBest_spec : ∀ {l : List ConversionFlag} {b : ConversionFlag},
    pickBest l = some b → b ∈ l ∧ ∀ f ∈ l, ¬ beats f b := by
  intro l
  induction l with
  | nil => intro b h; exact Option.noConfusion h
  | cons f fs ih =>
    intro b hb
    cases hfs : pickBest fs with
    | none =>
      simp only [pickBest, hfs] at hb
      have hemp : fs = [] := pickBest_eq_none hfs
      subst hemp
      have hbf : b = f := (Option.some_inj.mp hb).symm
      subst hbf
      refine ⟨List.mem_singleton_self b, ?_⟩
      intro x hx
      rw [List.mem_singleton] at hx
      subst hx
      exact beats_irrefl x
    | some g =>
      simp only [pickBest, hfs] at hb
      obtain ⟨hgmem, hgbest⟩ := ih hfs
      by_cases hfg : beats f g
      · rw [if_pos hfg] at hb
        have hbf : b = f := (Option.some_inj.mp hb).symm
        subst hbf
        refine ⟨List.mem_cons_self b fs, ?_⟩
        intro x hx
        rcases List.mem_cons.mp hx with hx | hx
        · subst hx; exact beats_irrefl x
        · intro hxb
          exact hgbest x hx (beats_trans hxb hfg)
      · rw [if_neg hfg] at hb
        have hbg : b = g := (Option.some_inj.mp hb).symm
        subst hbg
        refine ⟨List.mem_cons_of_mem f hgmem, ?_⟩
        intro x hx
        rcases List.mem_cons.mp hx with hx | hx
        · subst hx; exact hfg
        · exact hgbest x hx

/-- Modelled from the spec: group the flags by episode key and keep, per
group, only the rank-1 flag. -/
def dedupe (flags : List ConversionFlag) : List ConversionFlag :=
  ((flags.map episodeKey).dedup).filterMap
    (fun k => pickBest (flags.filter (fun f => decide (episodeKey f = k))))

theorem mem_group_iff {flags : List ConversionFlag} {k : String × String}
    {f : ConversionFlag} :
    f ∈ flags.filter (fun f => decide (episodeKey f = k)) ↔
      f ∈ flags ∧ episodeKey f = k := by
  simp [List.mem_filter]

theorem map_filterMap_of_keys {K F : Type} (choice : K → Option F)
    (keyOf : F → K) : ∀ ks : List K,
    (∀ k ∈ ks, ∃ b, choice k = some b ∧ keyOf b = k) →
    (ks.filterMap choice).map keyOf = ks := by
  intro ks
  induction ks with
  | nil => intro _; rfl
  | cons k ks ih =>
    intro h
    obtain ⟨b, hb, hkb⟩ := h k (List.mem_cons_self k ks)
    rw [List.filterMap_cons, hb, List.map_cons, hkb,
      ih (fun k' hk' => h k' (List.mem_cons_of_mem k hk'))]

theorem dedupe_group_some {flags : List ConversionFlag} {k : String × String}
    (hk : k ∈ (flags.map episodeKey).dedup) :
    ∃ b, pickBest (flags.filter (fun f => decide (episodeKey f = k))) = some b ∧
      episodeKey b = k := by
  have hk2 : k ∈ flags.map episodeKey := List.mem_dedup.mp hk
  obtain ⟨f, hf, hfk⟩ := List.mem_map.mp hk2
  have hfg : f ∈ flags.filter (fun f => decide (episodeKey f = k)) :=
    mem_group_iff.mpr ⟨hf, hfk⟩
  cases hp : pickBest (flags.filter (fun f => decide (episodeKey f = k))) with
  | none =>
    exfalso
    have := pickBest_eq_none hp
    rw [this] at hfg
    exact List.not_mem_nil f hfg
  | some b =>
    refine ⟨b, rfl, ?_⟩
    exact (mem_group_iff.mp (pickBest_spec hp).1).2

theorem dedupe_keys (flags : List ConversionFlag) :
    (dedupe flags).map episodeKey = (flags.map episodeKey).dedup := by
  rw [dedupe]
  exact map_filterMap_of_keys _ episodeKey _
    (fun k hk => dedupe_group_some hk)

theorem dedupe_mem_spec {flags : List ConversionFlag} {c : ConversionFlag}
    (hc : c ∈ dedupe flags) :
    c ∈ flags ∧ ∀ f ∈ flags, episodeKey f = episodeKey c → ¬ beats f c := by
  rw [dedupe] at hc
  obtain ⟨k, _, hpick⟩ := List.mem_filterMap.mp hc
  obtain ⟨hcg, hbest⟩ := pickBest_spec hpick
  obtain ⟨hcf, hck⟩ := mem_group_iff.mp hcg
  refine ⟨hcf, ?_⟩
  intro f hf hkey
  exact hbest f (mem_group_iff.mpr ⟨hf, hkey.trans hck⟩)

/-! ### Reallocation engine

Embedded from src/src/quorum-optimizer.jsx: calcPriority and calcIndex,
the enrichment and recommendation-tier selection inside analyzeData, and
the projection helper calcProj. -/

/-- The two fields of the object calcPriority reads (impressions and
visitRate). -/
structure PrioInput where
  impressions : ℚ
  visitRate : ℚ
deriving DecidableEq

/-- calcPriority from the source: impression share times 1000 minus the
performance ratio times 100, rounded; the performance ratio is zero when
the baseline is not positive. -/
def calcPriority (item : PrioInput) (baseline totalImpressions : ℚ) : ℤ :=
  let impShare := item.impressions / totalImpressions
  let perfRatio := if 0 < baseline then item.visitRate / baseline else 0
  jsRound (impShare * 1000 - perfRatio * 100)

/-- calcIndex from the source: the rate over the baseline times 100,
rounded, and zero when the baseline is not positive. -/
def calcIndex (itemRate baselineRate : ℚ) : ℤ :=
  if 0 < baselineRate then jsRound (itemRate / baselineRate * 100) else 0

/-- A publisher or context row of the advertiser data store. -/
structure PubRow where
  code : String
  impressions : ℚ
  visits : ℚ
  visitRate : ℚ
deriving DecidableEq

/-- A publisher row enriched with its reallocation priority. -/
structure ScoredPub extends PubRow where
  reallocationPriority : ℤ
deriving DecidableEq

/-- A zip row of the advertiser data store; population, DMA and a stored
visit rate are optional, as in the source data. -/
structure ZipRow where
  zip : String
  dma : Option String
  population : Option ℚ
  impressions : ℚ
  visits : ℚ
  visitRate : Option ℚ
deriving DecidableEq

/-- A zip row enriched with its computed visit rate and reallocation
priority. -/
structure ScoredZip where
  zip : String
  dma : Option String
  population : Option ℚ
  impressions : ℚ
  visits : ℚ
  visitRate : ℚ
  reallocationPriority : ℤ
deriving DecidableEq

/-- The zip visit rate of the source: visits over impressions when
impressions are positive, otherwise the stored visitRate field or zero. -/
def zipVisitRate (z : ZipRow) : ℚ :=
  if 0 < z.impressions then z.visits / z.impressions else z.visitRate.getD 0

/-- The same ternary expression under JS semantics, keeping the IEEE
special values a division could produce. -/
def zipVisitRateJS (z : ZipRow) : JsNum :=
  if 0 < z.impressions then JsNum.div (.fin z.visits) (.fin z.impressions)
  else .fin (z.visitRate.getD 0)

/-- The zip population share of the source: population (or zero) over the
total population, and zero when the total population is not positive. -/
def zipPopShare (totalPop : ℚ) (z : ZipRow) : ℚ :=
  if 0 < totalPop then z.population.getD 0 / totalPop else 0

/-- The population-weighted delivery index of the source: impression share
over population share times 100, rounded, and zero when the population
share is not positive. -/
def popWeightedIdx (totalImps totalPop : ℚ) (z : ZipRow) : ℤ :=
  let zipImpShare := z.impressions / totalImps
  let share := zipPopShare totalPop z
  if 0 < share then jsRound (zipImpShare / share * 100) else 0

/-- The zip enrichment of analyzeData: computed visit rate, and a priority
that is the population-weighted index minus the performance index when the
former is positive, else the generic calcPriority. -/
def enrichZip (baseline totalImps totalPop : ℚ) (z : ZipRow) : ScoredZip :=
  let vRate := zipVisitRate z
  let pwi := popWeightedIdx totalImps totalPop z
  { zip := z.zip, dma := z.dma, population := z.population,
    impressions := z.impressions, visits := z.visits, visitRate := vRate,
    reallocationPriority :=
      if 0 < pwi then pwi - calcIndex vRate baseline
      else calcPriority ⟨z.impressions, vRate⟩ baseline totalImps }

/-- The summary block of one advertiser in the data store. -/
structure AdvSummary where
  totalImpressions : ℚ
  totalVisits : ℚ
  overallVisitRate : ℚ
deriving DecidableEq

/-- A campaign row of the advertiser data store. -/
structure Campaign where
  name : String
  impressions : ℚ
  visits : ℚ
  visitRate : ℚ
deriving DecidableEq

/-- A campaign row enriched with its performance index. -/
structure ScoredCampaign extends Campaign where
  index : ℤ
deriving DecidableEq

/-- One advertiser of the data store, with the dmaZipCounts lookup table
as an association list. -/
structure AdvData where
  summary : AdvSummary
  campaigns : List Campaign
  publishers : List PubRow
  zipCodes : List ZipRow
  dmaZipCounts : List (String × ℕ)
deriving DecidableEq

/-- The two fields of the objects calcProj reads (impressions and
visits). -/
structure ProjInput where
  impressions : ℚ
  visits : ℚ
deriving DecidableEq

/-- The object calcProj returns: projected new rate, improvement over
baseline, and the excluded impression total. -/
structure Proj where
  newRate : JsNum
  improvement : JsNum
  excImps : ℚ
deriving DecidableEq

/-- calcProj from the source, under JS semantics: sums the selected rows,
divides the remaining visits by the remaining impressions with no guard,
and turns the new rate into a percent improvement over the baseline. -/
def calcProj (items : List ProjInput) (totalVisits totalImps baseline : ℚ) :
    Proj :=
  let excImps := (items.map (fun i => i.impressions)).sum
  let excVisits := (items.map (fun i => i.visits)).sum
  let newRate := JsNum.div (.fin (totalVisits - excVisits))
    (.fin (totalImps - excImps))
  { newRate := newRate,
    improvement := JsNum.mul
      (JsNum.sub (JsNum.div newRate (.fin baseline)) (.fin 1)) (.fin 100),
    excImps := excImps }

/-- One recommendation tier as assembled by setData: the calcProj figures
plus the selected rows and their count. -/
structure TierReco (α : Type) where
  newRate : JsNum
  improvement : JsNum
  excImps : ℚ
  count : ℕ
  items : List α

/-- A pair of recommendation tiers, always computed together. -/
structure RecoSet (α : Type) where
  conservative : TierReco α
  aggressive : TierReco α

/-- Builds one tier record from the selected rows. -/
def mkTier {α : Type} (toProj : α → ProjInput) (sel : List α)
    (tv ti b : ℚ) : TierReco α :=
  let p := calcProj (sel.map toProj) tv ti b
  ⟨p.newRate, p.improvement, p.excImps, sel.length, sel⟩

/-- The campaign enrichment of analyzeData. -/
def scoredCampaigns (adv : AdvData) : List ScoredCampaign :=
  adv.campaigns.map
    (fun c => ⟨c, calcIndex c.visitRate adv.summary.overallVisitRate⟩)

/-- The publisher enrichment of analyzeData. -/
def scoredPubs (adv : AdvData) : List ScoredPub :=
  adv.publishers.map (fun p =>
    ⟨p, calcPriority ⟨p.impressions, p.visitRate⟩
      adv.summary.overallVisitRate adv.summary.totalImpressions⟩)

/-- The total population reduce of analyzeData. -/
def totalPopOf (adv : AdvData) : ℚ :=
  (adv.zipCodes.map (fun z => z.population.getD 0)).sum

/-- The zip enrichment of analyzeData over the whole list. -/
def scoredZips (adv : AdvData) : List ScoredZip :=
  adv.zipCodes.map (enrichZip adv.summary.overallVisitRate
    adv.summary.totalImpressions (totalPopOf adv))

/-- The dmaZipCounts lookup with the JS or-default: a missing entry or a
zero count both read as 999. -/
def dmaCount (counts : List (String × ℕ)) (d : String) : ℕ :=
  match counts.lookup d with
  | none => 999
  | some 0 => 999
  | some (k + 1) => k + 1

/-- The DMA guardrail of the zip tier filters: rows with no DMA pass, and
rows whose DMA keeps more than 5 zips pass. -/
def zipGuard (counts : List (String × ℕ)) (dma : Option String) : Bool :=
  match dma with
  | none => true
  | some d => decide (5 < dmaCount counts d)

/-- The conservative publisher selection: positive priority and positive
visits, top 5 of the sort by descending priority. -/
def consPubsSel (adv : AdvData) : List ScoredPub :=
  ((sortKey (fun p => p.reallocationPriority) (scoredPubs adv)).filter
    (fun p => decide (0 < p.reallocationPriority) && decide (0 < p.visits))).take 5

/-- The aggressive publisher selection: priority above -20, top 8. -/
def aggPubsSel (adv : AdvData) : List ScoredPub :=
  ((sortKey (fun p => p.reallocationPriority) (scoredPubs adv)).filter
    (fun p => decide (-20 < p.reallocationPriority))).take 8

/-- The conservative zip selection: positive priority, positive visits and
the DMA guardrail, top 5. -/
def consZipsSel (adv : AdvData) : List ScoredZip :=
  ((sortKey (fun z => z.reallocationPriority) (scoredZips adv)).filter
    (fun z => decide (0 < z.reallocationPriority) && decide (0 < z.visits) &&
      zipGuard adv.dmaZipCounts z.dma)).take 5

/-- The aggressive zip selection: priority above -50 and the DMA
guardrail, top 10. -/
def aggZipsSel (adv : AdvData) : List ScoredZip :=
  ((sortKey (fun z => z.reallocationPriority) (scoredZips adv)).filter
    (fun z => decide (-50 < z.reallocationPriority) &&
      zipGuard adv.dmaZipCounts z.dma)).take 10

def pubToProj (p : ScoredPub) : ProjInput := ⟨p.impressions, p.visits⟩

def zipToProj (z : ScoredZip) : ProjInput := ⟨z.impressions, z.visits⟩

/-- The analysis record setData stores: enriched rows plus both
recommendation pairs; the publisher pair is null when there are no
publisher rows. -/
structure AnalysisResult where
  campaigns : List ScoredCampaign
  publishers : List ScoredPub
  zipCodes : List ScoredZip
  pubRecommendations : Option (RecoSet ScoredPub)
  geoRecommendations : RecoSet ScoredZip

/-- The computational core of analyzeData from the source. -/
def analyzeData (adv : AdvData) : AnalysisResult :=
  let tv := adv.summary.totalVisits
  let ti := adv.summary.totalImpressions
  let b := adv.summary.overallVisitRate
  { campaigns := scoredCampaigns adv,
    publishers := scoredPubs adv,
    zipCodes := scoredZips adv,
    pubRecommendations :=
      if 0 < (scoredPubs adv).length then
        some ⟨mkTier pubToProj (consPubsSel adv) tv ti b,
              mkTier pubToProj (aggPubsSel adv) tv ti b⟩
      else none,
    geoRecommendations :=
      ⟨mkTier zipToProj (consZipsSel adv) tv ti b,
       mkTier zipToProj (aggZipsSel adv) tv ti b⟩ }

/-! ### Claims about the scoring arithmetic -/

/-- C2: for every row with impressions i and visit rate r, positive total
impression count T and baseline b > 0, calcPriority returns
round(1000*(i/T) - 100*(r/b)); in particular a row with one million
impressions, rate 0.001, total two million and baseline 0.004 gets
priority 475. -/
theorem priority_formula :
    (∀ i r T b : ℚ, 0 < T → 0 < b →
      calcPriority ⟨i, r⟩ b T = jsRound (1000 * (i / T) - 100 * (r / b))) ∧
    calcPriority ⟨1000000, 1/1000⟩ (1/250) 2000000 = 475 := by
  constructor
  · intro i r T b _ hb
    simp only [calcPriority, if_pos hb]
    exact jsRound_congr (by ring)
  · norm_num [calcPriority, jsRound_eq]

theorem priority_formula_witness :
    calcPriority ⟨3, 2⟩ 1 4 = jsRound (1000 * ((3 : ℚ) / 4) - 100 * ((2 : ℚ) / 1)) :=
  priority_formula.1 3 2 4 1 (by norm_num) (by norm_num)

/-- C3: for a geography row the population-weighted index is
round(100 * impression_share / population_share), zero when the population
share is zero, the priority is that index minus the performance index when
the index is positive, and otherwise the generic formula
round(1000*impression_share - 100*(visit_rate/baseline)). -/
theorem geo_priority_formula (z : ZipRow) (b ti tp : ℚ) (hb : 0 < b)
    (hpop : 0 ≤ z.population.getD 0) :
    (popWeightedIdx ti tp z =
      if zipPopShare tp z = 0 then 0
      else jsRound (100 * (z.impressions / ti) / zipPopShare tp z)) ∧
    ((enrichZip b ti tp z).reallocationPriority =
      if 0 < popWeightedIdx ti tp z then
        popWeightedIdx ti tp z - calcIndex (zipVisitRate z) b
      else jsRound (1000 * (z.impressions / ti) - 100 * (zipVisitRate z / b))) := by
  have hshare : 0 ≤ zipPopShare tp z := by
    rw [zipPopShare]
    split
    · exact div_nonneg hpop (le_of_lt (by assumption))
    · exact le_refl 0
  constructor
  · rcases eq_or_lt_of_le hshare with h0 | hpos
    · rw [popWeightedIdx, if_neg (by rw [← h0]; exact lt_irrefl 0),
        if_pos h0.symm]
    · rw [popWeightedIdx, if_pos hpos, if_neg (ne_of_gt hpos)]
      exact jsRound_congr (by ring)
  · simp only [enrichZip]
    by_cases hpwi : 0 < popWeightedIdx ti tp z
    · rw [if_pos hpwi, if_pos hpwi]
    · rw [if_neg hpwi, if_neg hpwi]
      simp only [calcPriority, if_pos hb]
      exact jsRound_congr (by ring)

def wZip : ZipRow := ⟨"80001", some "DENVER", some 22, 131503, 798, none⟩

theorem geo_priority_formula_witness :
    popWeightedIdx 2000 100 wZip =
      if zipPopShare 100 wZip = 0 then 0
      else jsRound (100 * (wZip.impressions / 2000) / zipPopShare 100 wZip) :=
  (geo_priority_formula wZip (1/10) 2000 100 (by norm_num)
    (by norm_num [wZip])).1

/-- C8: calcPriority is monotonically non-decreasing in the impression
count (hence in impression share) with the visit rate, baseline and total
fixed, and monotonically non-increasing in the visit rate with the
impressions, baseline and total fixed. -/
theorem priority_monotone (r i i1 i2 r1 r2 b T : ℚ) (hT : 0 < T)
    (hi : i1 ≤ i2) (hr : r1 ≤ r2) :
    calcPriority ⟨i1, r⟩ b T ≤ calcPriority ⟨i2, r⟩ b T ∧
    calcPriority ⟨i, r2⟩ b T ≤ calcPriority ⟨i, r1⟩ b T := by
  constructor
  · simp only [calcPriority]
    apply jsRound_mono
    have h1 : i1 / T ≤ i2 / T := by gcongr
    nlinarith
  · simp only [calcPriority]
    apply jsRound_mono
    by_cases hb : 0 < b
    · simp only [if_pos hb]
      have h1 : r1 / b ≤ r2 / b := by gcongr
      nlinarith
    · simp only [if_neg hb]
      exact le_refl _

theorem priority_monotone_witness :
    calcPriority ⟨1, 5⟩ 2 10 ≤ calcPriority ⟨3, 5⟩ 2 10 ∧
    calcPriority ⟨4, 7⟩ 2 10 ≤ calcPriority ⟨4, 6⟩ 2 10 :=
  priority_monotone 5 4 1 3 6 7 2 10 (by norm_num) (by norm_num) (by norm_num)

/-! ### Claims about the projection helper -/

/-- C6: the projected figures of calcProj satisfy the spec formulas: the
excluded impressions are the sum over selected rows, the new rate is the
remaining visits (total minus the excluded-visit sum) over the remaining
impressions, and the improvement is 100*(new_rate/baseline - 1); finite
whenever the remaining impressions and the baseline are nonzero. -/
theorem projection_formulas (items : List ProjInput) (tv ti b : ℚ)
    (hden : ti - (items.map (fun i => i.impressions)).sum ≠ 0)
    (hb : b ≠ 0) :
    (calcProj items tv ti b).excImps = (items.map (fun i => i.impressions)).sum ∧
    (calcProj items tv ti b).newRate =
      JsNum.fin ((tv - (items.map (fun i => i.visits)).sum) /
        (ti - (items.map (fun i => i.impressions)).sum)) ∧
    (calcProj items tv ti b).improvement =
      JsNum.fin (100 * ((tv - (items.map (fun i => i.visits)).sum) /
        (ti - (items.map (fun i => i.impressions)).sum) / b - 1)) := by
  refine ⟨rfl, ?_, ?_⟩
  · simp only [calcProj, JsNum.div, if_neg hden]
  · simp only [calcProj, JsNum.div, JsNum.sub, JsNum.mul, if_neg hden, if_neg hb]
    exact congrArg JsNum.fin (by ring)

theorem projection_formulas_witness :
    (calcProj [⟨10, 1⟩] 2 20 1).newRate =
      JsNum.fin ((2 - (([⟨10, 1⟩] : List ProjInput).map (fun i => i.visits)).sum) /
        (20 - (([⟨10, 1⟩] : List ProjInput).map (fun i => i.impressions)).sum)) :=
  (projection_formulas [⟨10, 1⟩] 2 20 1 (by norm_num) (by norm_num)).2.1

theorem improvement_nonfinite {x : JsNum} (hx : x.isFinite = false) (b : ℚ) :
    (JsNum.mul (JsNum.sub (JsNum.div x (.fin b)) (.fin 1)) (.fin 100)).isFinite =
      false := by
  cases x with
  | fin q => simp [JsNum.isFinite] at hx
  | inf =>
    by_cases hb : 0 ≤ b <;>
      norm_num [JsNum.div, JsNum.sub, JsNum.mul, JsNum.isFinite, hb]
  | ninf =>
    by_cases hb : 0 ≤ b <;>
      norm_num [JsNum.div, JsNum.sub, JsNum.mul, JsNum.isFinite, hb]
  | nan => norm_num [JsNum.div, JsNum.sub, JsNum.mul, JsNum.isFinite]

/-- C10: calcProj divides without a guard, so whenever the selected rows
sum to the entire impression total the new rate is a non-finite JS value
(NaN or an infinity), and so is the reported improvement; no error is
raised. -/
theorem projection_unguarded (items : List ProjInput) (tv ti b : ℚ)
    (h : (items.map (fun i => i.impressions)).sum = ti) :
    (calcProj items tv ti b).newRate.isFinite = false ∧
    (calcProj items tv ti b).improvement.isFinite = false := by
  have hden : ti - (items.map (fun i => i.impressions)).sum = 0 := by
    rw [h]; ring
  have hnr : (calcProj items tv ti b).newRate =
      if 0 < tv - (items.map (fun i => i.visits)).sum then JsNum.inf
      else if tv - (items.map (fun i => i.visits)).sum < 0 then JsNum.ninf
      else JsNum.nan := by
    simp only [calcProj, hden, JsNum.div, if_pos rfl, if_true]
  have himp : (calcProj items tv ti b).improvement =
      JsNum.mul (JsNum.sub (JsNum.div ((calcProj items tv ti b).newRate)
        (.fin b)) (.fin 1)) (.fin 100) := rfl
  have hfin : (calcProj items tv ti b).newRate.isFinite = false := by
    rw [hnr]
    rcases lt_trichotomy (tv - (items.map (fun i => i.visits)).sum) 0 with hlt | heq | hgt
    · rw [if_neg (by linarith), if_pos hlt]; rfl
    · rw [if_neg (by linarith), if_neg (by linarith)]; rfl
    · rw [if_pos hgt]; rfl
  exact ⟨hfin, by rw [himp]; exact improvement_nonfinite hfin b⟩

theorem projection_unguarded_witness :
    (calcProj [⟨100, 1⟩] 1 100 (1/50)).newRate.isFinite = false ∧
    (calcProj [⟨100, 1⟩] 1 100 (1/50)).improvement.isFinite = false :=
  projection_unguarded [⟨100, 1⟩] 1 100 (1/50) (by norm_num)

/-! ### Claims about the zip visit-rate guard -/

def c7Zip : ZipRow := ⟨"00000", none, none, 0, 0, some (3/100)⟩

def c7Adv : AdvData := ⟨⟨100, 10, 1/10⟩, [], [], [c7Zip], []⟩

/-- C7 counterexample: a zip row with zero impressions is not excluded
from the enriched output; it stays in the list with its stored visit rate,
refuting the claim that zero-impression groups are dropped. -/
theorem zero_impressions_not_excluded :
    c7Zip.impressions = 0 ∧
    (scoredZips c7Adv).map (fun z => z.zip) = ["00000"] ∧
    (scoredZips c7Adv).map (fun z => z.visitRate) = [3/100] := by
  refine ⟨rfl, ?_, ?_⟩ <;>
    norm_num [scoredZips, c7Adv, c7Zip, enrichZip, zipVisitRate, totalPopOf]

/-- C7 (amended): zero-impression rows are kept, not excluded; the visit
rate is computed with a guarded ternary, dividing only when impressions
are positive and falling back to the stored rate (or zero) otherwise, so
the computed rate is always a finite JS value, never infinity or NaN. -/
theorem visit_rate_guarded (adv : AdvData) :
    (scoredZips adv).length = adv.zipCodes.length ∧
    ∀ z : ZipRow, zipVisitRateJS z = JsNum.fin (zipVisitRate z) ∧
      (zipVisitRateJS z).isFinite = true ∧
      (0 < z.impressions → zipVisitRate z * z.impressions = z.visits) ∧
      (¬ 0 < z.impressions → zipVisitRate z = z.visitRate.getD 0) := by
  refine ⟨by rw [scoredZips]; exact List.length_map _ _, ?_⟩
  intro z
  have hjs : zipVisitRateJS z = JsNum.fin (zipVisitRate z) := by
    rw [zipVisitRateJS, zipVisitRate]
    by_cases h : 0 < z.impressions
    · rw [if_pos h, if_pos h]
      simp [JsNum.div, ne_of_gt h]
    · rw [if_neg h, if_neg h]
  refine ⟨hjs, by rw [hjs]; rfl, ?_, ?_⟩
  · intro h
    rw [zipVisitRate, if_pos h]
    exact div_mul_cancel₀ _ (ne_of_gt h)
  · intro h
    rw [zipVisitRate, if_neg h]

theorem visit_rate_guarded_witness :
    zipVisitRate c7Zip = c7Zip.visitRate.getD 0 :=
  ((visit_rate_guarded c7Adv).2 c7Zip).2.2.2 (by norm_num [c7Zip])

/-! ### Claims about the attribution resolver -/

/-- C1: dedupe groups the flags by episode key and keeps exactly one row
per episode key present in the input, the row with the maximum event
timestamp of its group; the empty input yields the empty output. -/
theorem dedupe_last_touch (flags : List ConversionFlag) :
    dedupe ([] : List ConversionFlag) = [] ∧
    (dedupe flags).map episodeKey = (flags.map episodeKey).dedup ∧
    ∀ c ∈ dedupe flags, c ∈ flags ∧
      ∀ f ∈ flags, episodeKey f = episodeKey c → f.eventTs ≤ c.eventTs := by
  refine ⟨rfl, dedupe_keys flags, ?_⟩
  intro c hc
  obtain ⟨hcf, hbest⟩ := dedupe_mem_spec hc
  exact ⟨hcf, fun f hf hk => (not_beats_le (hbest f hf hk)).1⟩

def fA : ConversionFlag := ⟨"r1", "dev1", .store, "2026-01-05", "", 100⟩

def fB : ConversionFlag := ⟨"r2", "dev1", .store, "2026-01-05", "", 90⟩

theorem dedupe_last_touch_witness : fB.eventTs ≤ fA.eventTs :=
  ((dedupe_last_touch [fA, fB]).2.2 fA (by decide)).2 fB (by simp) rfl

/-- C9: dedupe is deterministic (a pure function of its input), and on a
timestamp tie within an episode group the kept row has the
lexicographically smallest source-row identifier. -/
theorem dedupe_deterministic (flags : List ConversionFlag) :
    dedupe flags = dedupe flags ∧
    ∀ c ∈ dedupe flags, ∀ f ∈ flags, episodeKey f = episodeKey c →
      f.eventTs ≤ c.eventTs ∧ (f.eventTs = c.eventTs → c.rowId ≤ f.rowId) := by
  refine ⟨rfl, ?_⟩
  intro c hc f hf hk
  exact not_beats_le ((dedupe_mem_spec hc).2 f hf hk)

def fC : ConversionFlag := ⟨"A", "dev2", .web, "", "ep1", 50⟩

def fD : ConversionFlag := ⟨"B", "dev2", .web, "", "ep1", 50⟩

theorem dedupe_deterministic_witness :
    fD.eventTs ≤ fC.eventTs ∧ (fD.eventTs = fC.eventTs → fC.rowId ≤ fD.rowId) :=
  (dedupe_deterministic [fD, fC]).2 fC (by decide) fD (by simp) rfl

/-! ### Claims about the recommendation tiers -/

def c4Zip : ZipRow := ⟨"60601", some "CHICAGO", some 100, 1000, 1, none⟩

def c4Adv : AdvData := ⟨⟨2000, 1, 1/10⟩, [], [], [c4Zip], [("CHICAGO", 3)]⟩

/-- C4 counterexample: a geography row with positive priority and nonzero
visits whose DMA keeps only 3 zips is dropped by the DMA guardrail, so the
conservative tier is empty even though the row is among the top 5
qualifying rows by priority; the tier is not simply the top 5 rows with
positive priority and nonzero visits. -/
theorem tiers_cex :
    (∀ z ∈ scoredZips c4Adv, 0 < z.reallocationPriority ∧ 0 < z.visits) ∧
    scoredZips c4Adv ≠ [] ∧
    (analyzeData c4Adv).geoRecommendations.conservative.items = [] := by
  have hz : scoredZips c4Adv =
      [⟨"60601", some "CHICAGO", some 100, 1000, 1, 1/1000, 49⟩] := by
    norm_num [scoredZips, c4Adv, c4Zip, enrichZip, zipVisitRate, totalPopOf,
      popWeightedIdx, zipPopShare, calcIndex, calcPriority, jsRound_eq]
  refine ⟨?_, ?_, ?_⟩
  · rw [hz]
    intro z hzz
    rw [List.mem_singleton] at hzz
    subst hzz
    norm_num
  · rw [hz]
    exact List.cons_ne_nil _ _
  · show consZipsSel c4Adv = []
    rw [consZipsSel, hz]
    norm_num [sortKey, List.insertionSort, List.orderedInsert, zipGuard,
      dmaCount, List.lookup, c4Adv]

/-- C4 (amended): both tiers are computed and returned together; the
conservative tier holds rows with positive priority and nonzero visits and
the aggressive tier rows above a looser negative threshold (-20 for
publishers with top 8, -50 for geography with top 10, against top 5
conservative), each a top-k selection by descending priority; for the
geography dimension both tiers are additionally subject to the DMA
zip-count guardrail. -/
theorem tiers_amended (adv : AdvData) (hp : scoredPubs adv ≠ []) :
    (∃ pr : RecoSet ScoredPub,
      (analyzeData adv).pubRecommendations = some pr ∧
      pr.conservative.items = consPubsSel adv ∧
      pr.aggressive.items = aggPubsSel adv) ∧
    (analyzeData adv).geoRecommendations.conservative.items = consZipsSel adv ∧
    (analyzeData adv).geoRecommendations.aggressive.items = aggZipsSel adv ∧
    (∀ p ∈ consPubsSel adv, 0 < p.reallocationPriority ∧ 0 < p.visits) ∧
    (consPubsSel adv).length ≤ 5 ∧
    (∀ p ∈ consPubsSel adv, ∀ q ∈ scoredPubs adv, 0 < q.reallocationPriority →
      0 < q.visits → q ∉ consPubsSel adv →
      q.reallocationPriority ≤ p.reallocationPriority) ∧
    (∀ p ∈ aggPubsSel adv, -20 < p.reallocationPriority) ∧
    (aggPubsSel adv).length ≤ 8 ∧
    (∀ p ∈ aggPubsSel adv, ∀ q ∈ scoredPubs adv, -20 < q.reallocationPriority →
      q ∉ aggPubsSel adv → q.reallocationPriority ≤ p.reallocationPriority) ∧
    (∀ z ∈ consZipsSel adv, 0 < z.reallocationPriority ∧ 0 < z.visits ∧
      zipGuard adv.dmaZipCounts z.dma = true) ∧
    (consZipsSel adv).length ≤ 5 ∧
    (∀ z ∈ consZipsSel adv, ∀ q ∈ scoredZips adv, 0 < q.reallocationPriority →
      0 < q.visits → zipGuard adv.dmaZipCounts q.dma = true →
      q ∉ consZipsSel adv → q.reallocationPriority ≤ z.reallocationPriority) ∧
    (∀ z ∈ aggZipsSel adv, -50 < z.reallocationPriority ∧
      zipGuard adv.dmaZipCounts z.dma = true) ∧
    (aggZipsSel adv).length ≤ 10 ∧
    (∀ z ∈ aggZipsSel adv, ∀ q ∈ scoredZips adv, -50 < q.reallocationPriority →
      zipGuard adv.dmaZipCounts q.dma = true → q ∉ aggZipsSel adv →
      q.reallocationPriority ≤ z.reallocationPriority) := by
  have hlen : 0 < (scoredPubs adv).length := List.length_pos.mpr hp
  refine ⟨⟨⟨mkTier pubToProj (consPubsSel adv) adv.summary.totalVisits
      adv.summary.totalImpressions adv.summary.overallVisitRate,
    mkTier pubToProj (aggPubsSel adv) adv.summary.totalVisits
      adv.summary.totalImpressions adv.summary.overallVisitRate⟩,
    by simp only [analyzeData, if_pos hlen], rfl, rfl⟩,
    rfl, rfl, ?_, ?_, ?_, ?_, ?_, ?_, ?_, ?_, ?_, ?_, ?_, ?_⟩
  · intro p hmem
    rw [consPubsSel] at hmem
    have := take_filter_pred _ _ _ _ hmem
    simpa [Bool.and_eq_true, decide_eq_true_eq] using this
  · rw [consPubsSel]
    exact take_filter_len _ _ _ _
  · intro p hmem q hq hq1 hq2 hqn
    rw [consPubsSel] at hmem hqn
    exact take_filter_top _ _ _ _ hmem hq
      (by simp [Bool.and_eq_true, decide_eq_true_eq]; exact ⟨hq1, hq2⟩) hqn
  · intro p hmem
    rw [aggPubsSel] at hmem
    have := take_filter_pred _ _ _ _ hmem
    simpa [decide_eq_true_eq] using this
  · rw [aggPubsSel]
    exact take_filter_len _ _ _ _
  · intro p hmem q hq hq1 hqn
    rw [aggPubsSel] at hmem hqn
    exact take_filter_top _ _ _ _ hmem hq
      (by simp [decide_eq_true_eq]; exact hq1) hqn
  · intro z hmem
    rw [consZipsSel] at hmem
    have := take_filter_pred _ _ _ _ hmem
    simpa [Bool.and_eq_true, decide_eq_true_eq, and_assoc] using this
  · rw [consZipsSel]
    exact take_filter_len _ _ _ _
  · intro z hmem q hq hq1 hq2 hq3 hqn
    rw [consZipsSel] at hmem hqn
    exact take_filter_top _ _ _ _ hmem hq
      (by simp [Bool.and_eq_true, decide_eq_true_eq]; exact ⟨⟨hq1, hq2⟩, hq3⟩) hqn
  · intro z hmem
    rw [aggZipsSel] at hmem
    have := take_filter_pred _ _ _ _ hmem
    simpa [Bool.and_eq_true, decide_eq_true_eq] using this
  · rw [aggZipsSel]
    exact take_filter_len _ _ _ _
  · intro z hmem q hq hq1 hq2 hqn
    rw [aggZipsSel] at hmem hqn
    exact take_filter_top _ _ _ _ hmem hq
      (by simp [Bool.and_eq_true, decide_eq_true_eq]; exact ⟨hq1, hq2⟩) hqn

def w4Pub : PubRow := ⟨"PubOne", 60, 2, 1/30⟩

def w4Adv : AdvData := ⟨⟨100, 5, 1/20⟩, [], [w4Pub], [], []⟩

theorem tiers_amended_witness :
    ∃ pr : RecoSet ScoredPub,
      (analyzeData w4Adv).pubRecommendations = some pr ∧
      pr.conservative.items = consPubsSel w4Adv ∧
      pr.aggressive.items = aggPubsSel w4Adv :=
  (tiers_amended w4Adv (by simp [scoredPubs, w4Adv])).1

/-! ### The missing max-exclusion guardrail -/

def c5Pub : PubRow := ⟨"OnlyPub", 100, 1, 1/100⟩

def c5Adv : AdvData := ⟨⟨100, 1, 1/50⟩, [], [c5Pub], [], []⟩

/-- C5: the tier selection applies no maximum-excluded-impression-fraction
guardrail: a conservative recommendation can exclude rows carrying 100
percent of the advertiser's impressions, far above the documented 35
percent cap. -/
theorem max_exclusion_guardrail_absent :
    ∃ pr : RecoSet ScoredPub,
      (analyzeData c5Adv).pubRecommendations = some pr ∧
      pr.conservative.excImps = c5Adv.summary.totalImpressions ∧
      (35 : ℚ) / 100 * c5Adv.summary.totalImpressions < pr.conservative.excImps := by
  have hlen : 0 < (scoredPubs c5Adv).length := by simp [scoredPubs, c5Adv]
  have hsel : consPubsSel c5Adv =
      [⟨⟨"OnlyPub", 100, 1, 1/100⟩, 950⟩] := by
    norm_num [consPubsSel, scoredPubs, c5Adv, c5Pub, calcPriority, sortKey,
      List.insertionSort, List.orderedInsert, jsRound_eq]
  refine ⟨⟨mkTier pubToProj (consPubsSel c5Adv) c5Adv.summary.totalVisits
      c5Adv.summary.totalImpressions c5Adv.summary.overallVisitRate,
    mkTier pubToProj (aggPubsSel c5Adv) c5Adv.summary.totalVisits
      c5Adv.summary.totalImpressions c5Adv.summary.overallVisitRate⟩,
    by simp only [analyzeData, if_pos hlen], ?_, ?_⟩
  · show (mkTier pubToProj (consPubsSel c5Adv) _ _ _).excImps = _
    rw [hsel]
    norm_num [mkTier, calcProj, pubToProj, c5Adv]
  · show _ < (mkTier pubToProj (consPubsSel c5Adv) _ _ _).excImps
    rw [hsel]
    norm_num [mkTier, calcProj, pubToProj, c5Adv]

end Quorum
